import Mathlib

/-!
# Verification of the legal-rag backend against its specification

Shallow embedding of the relevant parts of `backend/app` (the PDF chunker,
the PDF processing pipeline, the vector-store search filter, the LLM answer
assembler, the confidence parser and the daily cost tracker), together with
theorems settling the specification claims.

Conventions:
* Python strings are modelled as `String` / `List Char`; helper functions
  (`str.strip`, `str.split`, `str.replace`, regex splitting and searching)
  are implemented character by character, restricted to ASCII whitespace
  (Python applies the same rules to a larger Unicode whitespace set, which
  no claim exercises).
* The tiktoken `cl100k_base` tokenizer is external to the repository; every
  definition that calls `count_tokens` is parameterised by an abstract
  token-counting function `tok : List Char → Nat`.
* Python `dict`s are modelled as functions into `Option`, Python floats as
  `ℚ`, and raised exceptions as `Except String`.
-/

namespace LegalRag

/-- Python `\s` (ASCII part): the whitespace test used by `str.strip`,
`str.split()` and the `\s+` / `\s*` regex pieces. -/
def isPyWs (c : Char) : Bool :=
  c = ' ' || c = '\t' || c = '\n' || c = '\r' || c = '\x0b' || c = '\x0c'

/-- The sentence-ending characters of the chunker's regex `(?<=[.!?])\s+`
(pdf_processor.py line 43). -/
def isSentenceEnder (c : Char) : Bool :=
  c = '.' || c = '!' || c = '?'

/-- Embeds `re.split(r'(?<=[.!?])\s+', text)`: cut after a `.`/`!`/`?` that is
followed by whitespace, consuming the maximal whitespace run
(pdf_processor.py line 43).  One-pass state machine (so that the kernel
can evaluate it): `acc` holds the current piece reversed, `skip` is true
while the whitespace run after a cut is being consumed. -/
def splitSentencesAux : Bool → List Char → List Char → List (List Char)
  | _, [], acc => [acc.reverse]
  | skip, c :: rest, acc =>
    if skip && isPyWs c then splitSentencesAux true rest acc
    else if isSentenceEnder c && (match rest with | d :: _ => isPyWs d | [] => false) then
      (c :: acc).reverse :: splitSentencesAux true rest []
    else
      splitSentencesAux false rest (c :: acc)

/-- The sentence list the chunker works on (pdf_processor.py line 43). -/
def splitSentences (text : String) : List (List Char) :=
  splitSentencesAux false text.data []

/-- Python `str.strip()` (ASCII whitespace). -/
def pyStripL (l : List Char) : List Char :=
  ((l.dropWhile isPyWs).reverse.dropWhile isPyWs).reverse

/-- Python `str.split()` with no separator: split on whitespace runs and
drop empty pieces (used on an oversized sentence, pdf_processor.py line 60). -/
def pyWordsAux : List Char → List Char → List (List Char)
  | [], acc => if acc.isEmpty then [] else [acc.reverse]
  | c :: rest, acc =>
    if isPyWs c then
      if acc.isEmpty then pyWordsAux rest [] else acc.reverse :: pyWordsAux rest []
    else
      pyWordsAux rest (c :: acc)

/-- Python `sentence.split()`. -/
def pyWordsL (l : List Char) : List (List Char) :=
  pyWordsAux l []

/-- Python `' '.join(pieces)`. -/
def joinSp : List (List Char) → List Char
  | [] => []
  | [p] => p
  | p :: ps => p ++ ' ' :: joinSp ps

/-- Cumulative token count of a list of pieces. -/
def sumTok (tok : List Char → Nat) (ps : List (List Char)) : Nat :=
  (ps.map tok).sum

/-- The backward walk over `reversed(current_chunk)` that collects the
overlap sentences (pdf_processor.py lines 81-89).  `acc` is
`overlap_chunk` (kept in original order by consing, which models
`overlap_chunk.insert(0, s)`), `cnt` is `overlap_count`. -/
def overlapGo (tok : List Char → Nat) (overlapTokens : Nat) :
    List (List Char) → List (List Char) → Nat → List (List Char) × Nat
  | [], acc, cnt => (acc, cnt)
  | s :: rest, acc, cnt =>
    if cnt + tok s ≤ overlapTokens then
      overlapGo tok overlapTokens rest (s :: acc) (cnt + tok s)
    else
      (acc, cnt)

/-- The pair `(overlap_chunk, overlap_count)` computed from `current_chunk`
(pdf_processor.py lines 80-89). -/
def overlapOf (tok : List Char → Nat) (overlapTokens : Nat) (cur : List (List Char)) :
    List (List Char) × Nat :=
  overlapGo tok overlapTokens cur.reverse [] 0

/-- The inner word loop that splits an oversized sentence
(pdf_processor.py lines 60-75).  State: emitted chunks (as piece lists),
`temp_chunk`, `temp_tokens`.  Returns the state after the loop. -/
def procWords (tok : List Char → Nat) (maxTokens : Nat) :
    List (List Char) → List (List (List Char)) → List (List Char) → Nat →
    List (List (List Char)) × List (List Char) × Nat
  | [], chunks, temp, tempTok => (chunks, temp, tempTok)
  | w :: ws, chunks, temp, tempTok =>
    if tempTok + tok (w ++ [' ']) > maxTokens then
      procWords tok maxTokens ws (chunks ++ if temp.isEmpty then [] else [temp])
        [w] (tok (w ++ [' ']))
    else
      procWords tok maxTokens ws chunks (temp ++ [w]) (tempTok + tok (w ++ [' ']))

/-- The main sentence loop of `_split_into_chunks`
(pdf_processor.py lines 48-99), producing chunks as piece lists (the
source joins each flushed `current_chunk` with `' '.join`; joining is
applied once at the end in `splitIntoChunks`).  State: `chunks`,
`current_chunk`, `current_tokens`. -/
def chunkLoop (tok : List Char → Nat) (maxTokens overlapTokens : Nat) :
    List (List Char) → List (List (List Char)) → List (List Char) → Nat →
    List (List (List Char))
  | [], chunks, cur, _ =>
    if cur.isEmpty then chunks else chunks ++ [cur]
  | s :: rest, chunks, cur, curTok =>
    if tok s > maxTokens then
      chunkLoop tok maxTokens overlapTokens rest
        (procWords tok maxTokens (pyWordsL s)
          (if cur.isEmpty then chunks else chunks ++ [cur]) [] 0).1
        (procWords tok maxTokens (pyWordsL s)
          (if cur.isEmpty then chunks else chunks ++ [cur]) [] 0).2.1
        (procWords tok maxTokens (pyWordsL s)
          (if cur.isEmpty then chunks else chunks ++ [cur]) [] 0).2.2
    else if curTok + tok s > maxTokens then
      chunkLoop tok maxTokens overlapTokens rest (chunks ++ [cur])
        ((overlapOf tok overlapTokens cur).1 ++ [s])
        ((overlapOf tok overlapTokens cur).2 + tok s)
    else
      chunkLoop tok maxTokens overlapTokens rest chunks (cur ++ [s]) (curTok + tok s)

/-- Embeds `PDFProcessor._split_into_chunks` (pdf_processor.py lines 28-101), at
the level of piece lists: element `i` of the result is the list of pieces
(sentences, or words of an oversized sentence) whose space-join is the
`i`-th returned chunk string. -/
def splitIntoChunksPieces (tok : List Char → Nat) (maxTokens overlapTokens : Nat)
    (text : String) : List (List (List Char)) :=
  if (pyStripL text.data).isEmpty then []
  else chunkLoop tok maxTokens overlapTokens (splitSentences text) [] [] 0

/-- Embeds `PDFProcessor._split_into_chunks`: the chunk strings actually returned. -/
def splitIntoChunks (tok : List Char → Nat) (maxTokens overlapTokens : Nat)
    (text : String) : List String :=
  (splitIntoChunksPieces tok maxTokens overlapTokens text).map (fun ps => String.mk (joinSp ps))

/-- The subset of `config.py` `Settings` fields that the embedded services
read (`openai_model`, temperature and token cap only parameterise the
external LLM call and are folded into the LLM oracle). -/
structure Settings where
  maxPagesPerDocument : Nat
  chunkSizeTokens : Nat
  chunkOverlapTokens : Nat
  maxDailyQueries : Nat
  maxDailyCostUsd : ℚ
  gpt4oInputCostPer1k : ℚ
  gpt4oOutputCostPer1k : ℚ
deriving Repr, DecidableEq

/-! ## Confidence parsing (`llm_service.py` lines 75-91) -/

/-- Python `str.lower()` (ASCII model). -/
def pyLower (s : String) : List Char :=
  s.data.map Char.toLower

/-- Does `pre` occur at the very front of `l`? -/
def startsWithL : List Char → List Char → Bool
  | [], _ => true
  | _ :: _, [] => false
  | p :: ps, c :: cs => p = c && startsWithL ps cs

/-- Does the regex `confidence:\s*(high|medium|low)` match at the front of
`l`?  `\s*` is greedy but the three alternatives start with a
non-whitespace letter, so the match succeeds exactly when the level word
follows the maximal whitespace run after the colon. -/
def markerHere (l : List Char) : Option String :=
  if startsWithL ("confidence:").data l then
    if startsWithL ("high").data ((l.drop (("confidence:").data.length)).dropWhile isPyWs)
      then some "high"
    else if startsWithL ("medium").data ((l.drop (("confidence:").data.length)).dropWhile isPyWs)
      then some "medium"
    else if startsWithL ("low").data ((l.drop (("confidence:").data.length)).dropWhile isPyWs)
      then some "low"
    else none
  else none

/-- Embeds `re.search(r'confidence:\s*(high|medium|low)', text_lower)`: leftmost
match wins (llm_service.py line 80). -/
def findMarker : List Char → Option String
  | [] => none
  | c :: rest =>
    match markerHere (c :: rest) with
    | some v => some v
    | none => findMarker rest

/-- Embeds `LLMService._parse_confidence` (llm_service.py lines 75-91). -/
def parseConfidence (responseText : String) : String :=
  match findMarker (pyLower responseText) with
  | some lvl => lvl
  | none =>
    if ("cannot find sufficient").data <:+: pyLower responseText
        ∨ ("insufficient").data <:+: pyLower responseText then "low"
    else if ("clearly").data <:+: pyLower responseText
        ∨ ("explicitly").data <:+: pyLower responseText then "high"
    else "medium"

/-- The three confidence levels of the marker regex. -/
def levels : List String := ["high", "medium", "low"]

/-- Specification-side reading of "the text contains a
(case-insensitive) `confidence: high|medium|low` marker": some
decomposition of the lowered text exhibits `confidence:`, then a
(possibly empty) whitespace run, then the level word. -/
def MarkerIn (lw : List Char) (lvl : String) : Prop :=
  lvl ∈ levels ∧
    ∃ a w b, lw = a ++ ("confidence:").data ++ w ++ lvl.data ++ b ∧ ∀ c ∈ w, isPyWs c

/-! ## Retrieved chunks, the LLM answer assembler (`llm_service.py`) -/

/-- A search hit as returned by `VectorStoreService.search`: the stored
payload written by `add_chunks` (vector_store.py lines 87-103) together
with the similarity score of the current query. -/
structure ScoredChunk where
  score : ℚ
  chunk_id : String
  document_id : String
  document_title : String
  user_id : String
  page_number : Nat
  section_title : Option String
  text : String
  token_count : Nat
deriving Repr, DecidableEq

/-- Python `round` to nearest used to model `f"{q:.0%}"` percent
formatting of a float (no claim depends on the rounding mode). -/
def formatPercent (q : ℚ) : String :=
  Int.repr (round (q * 100)) ++ "%"

/-- One `[Source N] ...` entry of `_build_context`
(llm_service.py lines 58-71). -/
def contextEntry (i : Nat) (c : ScoredChunk) : String :=
  let header := "[Source " ++ Nat.repr (i + 1) ++ "] Document: " ++ c.document_title
    ++ " | Page: " ++ Nat.repr c.page_number
  let header := header ++
    (match c.section_title with
     | some s => if s.isEmpty then "" else " | Section: " ++ s
     | none => "")
  let header := header ++ " | Relevance: " ++ formatPercent c.score
  header ++ "\n" ++ c.text

/-- Embeds `LLMService._build_context` (llm_service.py lines 54-73). -/
def buildContext (chunks : List ScoredChunk) : String :=
  String.intercalate "\n\n---\n\n" (chunks.enum.map (fun p => contextEntry p.1 p.2))

/-- Embeds `LLMService.SYSTEM_PROMPT` (llm_service.py lines 15-33). -/
def systemPrompt : String :=
  "You are an expert legal document analyst. Your task is to provide thorough, accurate answers based ONLY on the provided document excerpts.\n\nINSTRUCTIONS:\n1. Read all provided sources carefully before answering\n2. Synthesize information from multiple sources when relevant\n3. Provide comprehensive answers with specific details from the documents\n4. Always cite your sources using [Source N] format after each claim\n5. If multiple sources support a point, cite all of them: [Source 1, Source 3]\n6. Use clear structure with headers and bullet points for complex answers\n7. Quote relevant text directly when it strengthens your answer\n8. If the sources fully answer the question, state \"Confidence: high\"\n9. Only use \"Confidence: medium\" if some aspects are unclear\n10. Only use \"Confidence: low\" if the sources don't contain relevant information\n\nIMPORTANT:\n- Base your answer ENTIRELY on the provided sources\n- Do not add information from outside the documents\n- If you cannot find the answer, explain what information IS available\n- This is for legal research assistance only, not legal advice"

/-- The user prompt of `generate_answer` (llm_service.py lines 119-135). -/
def userPromptFor (question context : String) : String :=
  "QUESTION: " ++ question ++ "\n\nDOCUMENT SOURCES:\n" ++ context
    ++ "\n\nPlease provide a thorough, well-structured answer to the question above using ONLY the information from the document sources provided.\n\nRequirements:\n- Cite every factual claim with [Source N]\n- Be comprehensive and include all relevant details from the sources\n- Use direct quotes where helpful\n- Structure your answer clearly\n\nEnd your response with exactly one of these:\n- \"Confidence: high\" - if the sources fully answer the question\n- \"Confidence: medium\" - if the sources partially answer the question\n- \"Confidence: low\" - if the sources don't contain relevant information"

/-- The fixed insufficient-evidence answer returned for an empty chunk
list (llm_service.py line 110). -/
def insufficientAnswerText : String :=
  "I cannot find sufficient information in the provided documents to answer this question. No relevant document sections were found."

/-- The value `generate_answer` returns (llm_service.py lines 164-170). -/
structure AnswerResult where
  answer : String
  confidence : String
  input_tokens : Nat
  output_tokens : Nat
  cost_usd : ℚ
deriving Repr, DecidableEq

/-- Embeds `LLMService.generate_answer` (llm_service.py lines 93-170).  The
OpenAI chat call is the oracle `llm : system prompt → user prompt →
response text` (`... or ""` makes the Python response a total string). -/
def generateAnswer (tok : List Char → Nat) (llm : String → String → String) (cfg : Settings)
    (question : String) (contextChunks : List ScoredChunk) : AnswerResult :=
  if contextChunks.isEmpty then
    { answer := insufficientAnswerText, confidence := "low",
      input_tokens := 0, output_tokens := 0, cost_usd := 0 }
  else
    let context := buildContext contextChunks
    let userPrompt := userPromptFor question context
    let inputTokens := tok (systemPrompt ++ userPrompt).data
    let answer := llm systemPrompt userPrompt
    let outputTokens := tok answer.data
    let cost := (inputTokens : ℚ) / 1000 * cfg.gpt4oInputCostPer1k
      + (outputTokens : ℚ) / 1000 * cfg.gpt4oOutputCostPer1k
    { answer := answer, confidence := parseConfidence answer,
      input_tokens := inputTokens, output_tokens := outputTokens, cost_usd := cost }

/-! ## Vector-store search (`vector_store.py` lines 112-176)

The Qdrant index is modelled as the list of stored points in descending
score order for the current query embedding; `query_points` returns the
first `limit` filter-matching points of that order. -/

/-- A Qdrant keyword `FieldCondition` as built by `search`. -/
structure FieldCondition where
  key : String
  value : String
deriving Repr, DecidableEq

/-- The payload keys the two indexed conditions can refer to. -/
def payloadStr (p : ScoredChunk) (key : String) : Option String :=
  if key = "user_id" then some p.user_id
  else if key = "document_id" then some p.document_id
  else none

/-- A keyword match condition holds on a point. -/
def condHolds (p : ScoredChunk) (c : FieldCondition) : Bool :=
  match payloadStr p c.key with
  | some v => v = c.value
  | none => false

/-- A Qdrant filter with `must` and optional `should` clauses. -/
structure QFilter where
  must : List FieldCondition
  should : Option (List FieldCondition)
deriving Repr, DecidableEq

/-- Qdrant filter semantics: every `must` condition holds, and when a
`should` list is present at least one of its conditions holds. -/
def matchesFilter (f : QFilter) (p : ScoredChunk) : Bool :=
  f.must.all (condHolds p) &&
    (match f.should with
     | none => true
     | some cs => cs.any (condHolds p))

/-- Embeds `client.query_points`: first `lim` filter-matching points in score
order (vector_store.py lines 158-164). -/
def queryPoints (db : List ScoredChunk) (f : QFilter) (lim : Nat) : List ScoredChunk :=
  (db.filter (matchesFilter f)).take lim

/-- The filter built by `search` (vector_store.py lines 133-155): a
`must` condition on `user_id` always, `should` conditions on
`document_id` only when `document_ids` is truthy (neither `None` nor
the empty list). -/
def searchFilter (userId : String) (documentIds : Option (List String)) : QFilter :=
  let mustConditions : List FieldCondition := [{ key := "user_id", value := userId }]
  let shouldConditions : Option (List FieldCondition) :=
    match documentIds with
    | some ds =>
      if ds.isEmpty then none
      else some (ds.map (fun d => { key := "document_id", value := d }))
    | none => none
  { must := mustConditions, should := shouldConditions }

/-- Embeds `VectorStoreService.search` (vector_store.py lines 112-176): query
`limit * 2` candidates, keep those with `score >= min_score`, return the
first `limit`. -/
def search (db : List ScoredChunk) (userId : String) (limit : Nat)
    (documentIds : Option (List String)) (minScore : ℚ) : List ScoredChunk :=
  let results := queryPoints db (searchFilter userId documentIds) (limit * 2)
  (results.filter (fun h => minScore ≤ h.score)).take limit

/-- The argument record a successful Python call binding of
`VectorStoreService.search` produces (the query embedding itself is
irrelevant to the filter and modelled as `Unit`). -/
structure SearchArgs where
  queryEmbedding : Unit
  userId : String
  limit : Nat
  documentIds : Option (List String)
  minScore : ℚ

/-- Python call binding for `search(self, query_embedding, user_id,
limit=5, document_ids=None, min_score=0.5)`: `user_id` has no default,
so a call that does not supply it raises `TypeError`. -/
def bindSearchCall (userId? : Option String) (limit? : Option Nat)
    (documentIds? : Option (Option (List String))) (minScore? : Option ℚ) :
    Except String SearchArgs :=
  match userId? with
  | none =>
    Except.error "TypeError: VectorStoreService.search() missing 1 required positional argument: user_id"
  | some uid =>
    Except.ok { queryEmbedding := (), userId := uid, limit := limit?.getD 5,
                documentIds := documentIds?.getD none, minScore := minScore?.getD (1 / 2) }

/-- The `vector_store.search(...)` invocation of `query_documents`
(query.py lines 79-85): the keywords passed are `query_embedding`,
`limit`, `document_ids` and `min_score` — no `user_id` argument is
supplied. -/
def queryPipelineSearchCall (limit : Nat) (documentIds : Option (List String))
    (minScore : ℚ) : Except String SearchArgs :=
  bindSearchCall none (some limit) (some documentIds) (some minScore)

/-! ## Daily cost tracking (`cost_tracker.py`)

`_daily_usage` is a dict keyed by ISO day strings, modelled as a function
into `Option`; the ambient date (`date.today()`) and timestamp
(`datetime.utcnow()`) are external inputs threaded as `today` / `now`. -/

/-- One day's usage record (`_get_today_usage`, cost_tracker.py
lines 21-32). -/
structure Usage where
  queries : Nat
  inputTokens : Nat
  outputTokens : Nat
  costUsd : ℚ
  startedAt : String
deriving Repr, DecidableEq

/-- The fresh record created for a new day key. -/
def zeroUsage (now : String) : Usage :=
  { queries := 0, inputTokens := 0, outputTokens := 0, costUsd := 0, startedAt := now }

/-- The `_daily_usage` dict. -/
def TrackerState : Type := String → Option Usage

/-- Embeds `CostTracker._get_today_usage` (cost_tracker.py lines 21-32): read
today's record, creating a zeroed one first when the key is new. -/
def getTodayUsage (st : TrackerState) (today now : String) : Usage × TrackerState :=
  match st today with
  | some u => (u, st)
  | none =>
    let u := zeroUsage now
    (u, fun k => if k = today then some u else st k)

/-- Python `f"{q:.2f}"`, modelled with rational rounding (the exact float
digits are irrelevant to every claim). -/
def format2f (q : ℚ) : String :=
  let c := round (q * 100)
  Int.repr (c / 100) ++ "." ++ (if c % 100 < 10 then "0" else "") ++ Nat.repr (c % 100).natAbs

/-- Embeds `CostTracker.can_process_query` (cost_tracker.py lines 34-49). -/
def canProcessQuery (cfg : Settings) (st : TrackerState) (today now : String) :
    (Bool × String) × TrackerState :=
  if (getTodayUsage st today now).1.queries ≥ cfg.maxDailyQueries then
    ((false, "Daily query limit (" ++ Nat.repr cfg.maxDailyQueries
      ++ ") reached. Try again tomorrow."), (getTodayUsage st today now).2)
  else if (getTodayUsage st today now).1.costUsd ≥ cfg.maxDailyCostUsd then
    ((false, "Daily cost limit ($" ++ format2f cfg.maxDailyCostUsd
      ++ ") reached. Try again tomorrow."), (getTodayUsage st today now).2)
  else
    ((true, "OK"), (getTodayUsage st today now).2)

/-- The in-place update `usage[...] += ...` of `track_query`
(cost_tracker.py lines 68-72). -/
def updatedUsage (u : Usage) (inputTokens outputTokens : Nat) (costUsd : ℚ) : Usage :=
  { queries := u.queries + 1, inputTokens := u.inputTokens + inputTokens,
    outputTokens := u.outputTokens + outputTokens, costUsd := u.costUsd + costUsd,
    startedAt := u.startedAt }

/-- Embeds `CostTracker.track_query` (cost_tracker.py lines 51-73). -/
def trackQuery (st : TrackerState) (today now : String)
    (inputTokens outputTokens : Nat) (costUsd : ℚ) : Usage × TrackerState :=
  (updatedUsage (getTodayUsage st today now).1 inputTokens outputTokens costUsd,
   fun k =>
     if k = today then some (updatedUsage (getTodayUsage st today now).1 inputTokens outputTokens costUsd)
     else (getTodayUsage st today now).2 k)

/-- The statistics record built by `get_usage_stats`
(cost_tracker.py lines 75-87). -/
structure UsageStats where
  period : String
  queriesToday : Nat
  totalTokensUsed : Nat
  totalCostUsd : ℚ
  maxQueries : Nat
  maxCostUsd : ℚ
deriving Repr, DecidableEq

/-- Embeds `CostTracker.get_usage_stats` (cost_tracker.py lines 75-87). -/
def getUsageStats (cfg : Settings) (st : TrackerState) (today now : String) :
    UsageStats × TrackerState :=
  ({ period := today, queriesToday := (getTodayUsage st today now).1.queries,
     totalTokensUsed := (getTodayUsage st today now).1.inputTokens
       + (getTodayUsage st today now).1.outputTokens,
     totalCostUsd := (getTodayUsage st today now).1.costUsd,
     maxQueries := cfg.maxDailyQueries,
     maxCostUsd := cfg.maxDailyCostUsd }, (getTodayUsage st today now).2)

/-- One call against the tracker (the operations of claim C10). -/
inductive TrackerOp where
  | can (today now : String)
  | track (today now : String) (inputTokens outputTokens : Nat) (costUsd : ℚ)
  | stats (today now : String)

/-- The state after one tracker call. -/
def runOp (cfg : Settings) (st : TrackerState) : TrackerOp → TrackerState
  | .can t n => (canProcessQuery cfg st t n).2
  | .track t n i o c => (trackQuery st t n i o c).2
  | .stats t n => (getUsageStats cfg st t n).2

/-- The state after a sequence of tracker calls. -/
def runOps (cfg : Settings) (st : TrackerState) (ops : List TrackerOp) : TrackerState :=
  ops.foldl (runOp cfg) st

/-- The non-negativity side condition of claim C10: `track_query` is
called with non-negative cost (token counts are `Nat`). -/
def OpNonneg : TrackerOp → Prop
  | .track _ _ _ _ c => 0 ≤ c
  | _ => True

/-- Recorded query count at a day key (absent key reads as zero). -/
def queriesAt (st : TrackerState) (k : String) : Nat :=
  ((st k).map Usage.queries).getD 0

/-- Recorded input-token count at a day key. -/
def inputTokensAt (st : TrackerState) (k : String) : Nat :=
  ((st k).map Usage.inputTokens).getD 0

/-- Recorded output-token count at a day key. -/
def outputTokensAt (st : TrackerState) (k : String) : Nat :=
  ((st k).map Usage.outputTokens).getD 0

/-- Accumulated cost at a day key. -/
def costAt (st : TrackerState) (k : String) : ℚ :=
  ((st k).map Usage.costUsd).getD 0

/-! ## PDF processing (`pdf_processor.py` lines 103-211)

`pymupdf` / `pymupdf4llm` are external: a run's input is the page count
of the opened document and the extracted per-page markdown
(`md_data`); both are functions of the file bytes, so byte-identical
uploads yield identical `pageCount` / `mdData`.  The `uuid.uuid4()`
document id generated at line 137 is an external random input `docId`. -/

/-- One `md_data` entry: 0-based page index from the metadata and the
page's markdown text. -/
structure PageData where
  page : Nat
  text : String
deriving Repr, DecidableEq

/-- An embedded `models/documents.py` `Chunk`. -/
structure Chunk where
  chunk_id : String
  document_id : String
  document_title : String
  page_number : Nat
  section_title : Option String
  text : String
  token_count : Nat
deriving Repr, DecidableEq

/-- An embedded `models/documents.py` `ProcessedDocument` (the upload
timestamp is not read by any claim). -/
structure ProcessedDocument where
  id : String
  title : String
  page_count : Nat
  chunks : List Chunk
  sections : List String
  file_size_bytes : Nat
deriving Repr, DecidableEq

/-- Match of `^#+\s+(.+?)$` on one line: at least one `#`, then at least
one whitespace character, then at least one further character; the
captured group is stripped, which coincides with stripping everything
after the `#` run. -/
def headerLineTitle (line : List Char) : Option (List Char) :=
  match line with
  | '#' :: _ =>
    let rest := line.dropWhile (fun c => c = '#')
    match rest with
    | c :: _ :: _ => if isPyWs c then some (pyStripL rest) else none
    | _ => none
  | _ => none

/-- Scan for the closing `**` of `^\*\*(.+?)\*\*`: the lazy group takes
at least one character, stops at the first following `**`, and cannot
cross a newline (when the scan is at `**` with nothing captured yet, the
lazy group is forced to capture the first `*`). -/
def boldScan : List Char → List Char → Option String
  | '*' :: '*' :: rest, acc =>
    if acc.isEmpty then
      match rest with
      | '*' :: _ => some (String.mk (pyStripL ['*']))
      | _ => boldScan rest ['*', '*']
    else some (String.mk (pyStripL acc.reverse))
  | c :: rest, acc =>
    if c = '\n' then none else boldScan rest (c :: acc)
  | [], _ => none

/-- Match of `^\*\*(.+?)\*\*` at the start of the whole text. -/
def boldTitle (l : List Char) : Option String :=
  match l with
  | '*' :: '*' :: rest => boldScan rest []
  | _ => none

/-- Embeds `PDFProcessor._extract_section_title` (pdf_processor.py
lines 103-115): first a multiline markdown-header match, then a bold
match at the start of the text. -/
def extractSectionTitle (text : String) : Option String :=
  match (text.data.splitOn '\n').findSome? headerLineTitle with
  | some t => some (String.mk t)
  | none => boldTitle text.data

/-- The size-limit error message raised at pdf_processor.py
lines 148-151. -/
def pageLimitMsg (pageCount maxPages : Nat) : String :=
  "Document has " ++ Nat.repr pageCount ++ " pages, maximum allowed is " ++ Nat.repr maxPages

/-- The deterministic chunk-id format
`f"{doc_id}_p{page_num}_c{i}"` (pdf_processor.py line 194). -/
def chunkIdFmt (docId : String) (page i : Nat) : String :=
  docId ++ "_p" ++ Nat.repr page ++ "_c" ++ Nat.repr i

/-- Fuel-driven body of Python `str.replace(old, new)` for non-empty
`old`: replace non-overlapping occurrences left to right.  The fuel
(initially the input length) only makes the recursion structural; one
unit is spent per step and a match consumes `old.length ≥ 1`
characters. -/
def pyReplaceFuel (old new : List Char) : Nat → List Char → List Char
  | _, [] => []
  | 0, l => l
  | fuel + 1, c :: rest =>
    if startsWithL old (c :: rest) && !old.isEmpty then
      new ++ pyReplaceFuel old new fuel ((c :: rest).drop old.length)
    else
      c :: pyReplaceFuel old new fuel rest

/-- Python `str.replace(old, new)` for non-empty `old` (both call sites
pass a non-empty pattern). -/
def pyReplaceL (old new : List Char) (l : List Char) : List Char :=
  pyReplaceFuel old new l.length l

/-- Embeds `custom_title or filename.replace('.pdf', '').replace('_', ' ')`
(pdf_processor.py line 138), with Python truthiness on the custom
title. -/
def docTitle (filename : String) (customTitle : Option String) : String :=
  let fallback :=
    String.mk (pyReplaceL ("_").data (" ").data (pyReplaceL (".pdf").data [] filename.data))
  match customTitle with
  | some t => if t.isEmpty then fallback else t
  | none => fallback

/-- Processing of one `md_data` page (pdf_processor.py lines 166-202):
skip blank pages, detect a section title (collected into the section
set, modelled as an insertion-ordered deduplicated list), chunk the page
text, and keep every non-blank stripped chunk with its `enumerate`
index in the id. -/
def processPage (tok : List Char → Nat) (cfg : Settings) (docId title : String)
    (acc : List Chunk × List String) (pd : PageData) : List Chunk × List String :=
  let pageNum := pd.page + 1
  if (pyStripL pd.text.data).isEmpty then acc
  else
    let sectionTitle := extractSectionTitle pd.text
    let sections :=
      match sectionTitle with
      | some s => if s.isEmpty then acc.2 else if s ∈ acc.2 then acc.2 else acc.2 ++ [s]
      | none => acc.2
    let pageChunks := splitIntoChunks tok cfg.chunkSizeTokens cfg.chunkOverlapTokens pd.text
    let newChunks := pageChunks.enum.filterMap (fun p =>
      let ct := String.mk (pyStripL p.2.data)
      if ct.isEmpty then none
      else some { chunk_id := chunkIdFmt docId pageNum p.1, document_id := docId,
                  document_title := title, page_number := pageNum,
                  section_title := sectionTitle, text := ct, token_count := tok ct.data })
    (acc.1 ++ newChunks, sections)

/-- Embeds `PDFProcessor.process_pdf` (pdf_processor.py lines 117-211). -/
def processPdf (tok : List Char → Nat) (cfg : Settings) (docId : String)
    (pageCount : Nat) (mdData : List PageData) (fileSizeBytes : Nat)
    (filename : String) (customTitle : Option String) : Except String ProcessedDocument :=
  let title := docTitle filename customTitle
  if pageCount > cfg.maxPagesPerDocument then
    Except.error (pageLimitMsg pageCount cfg.maxPagesPerDocument)
  else
    let r := mdData.foldl (processPage tok cfg docId title) ([], [])
    Except.ok { id := docId, title := title, page_count := pageCount,
                chunks := r.1, sections := r.2, file_size_bytes := fileSizeBytes }

/-- The chunks a processing run created (none on the error path). -/
def chunksOf : Except String ProcessedDocument → List Chunk
  | .error _ => []
  | .ok d => d.chunks

/-- The chunk texts of a run, in order. -/
def chunkTexts (r : Except String ProcessedDocument) : List String :=
  (chunksOf r).map Chunk.text

/-- The chunk ids of a run, in order. -/
def chunkIds (r : Except String ProcessedDocument) : List String :=
  (chunksOf r).map Chunk.chunk_id

/-- The overlap relation between consecutive chunks of claim C4: the
later chunk begins with a non-empty run of whole pieces that is a suffix
of the earlier chunk's pieces, within the overlap token budget. -/
def link (tok : List Char → Nat) (overlapTokens : Nat)
    (c1 c2 : List (List Char)) : Prop :=
  ∃ pre, pre ≠ [] ∧ pre <+: c2 ∧ pre <:+ c1 ∧ sumTok tok pre ≤ overlapTokens

/-- A word-count token model (used for concrete counterexamples): every
whitespace-separated word-run counts one token. -/
def wordCountTok (l : List Char) : Nat :=
  (pyWordsL l).length

/-- The per-chunk guarantee the chunker maintains: a chunk is non-empty
and either its cumulative token count is within `maxTokens +
overlapTokens` or it is a single piece. -/
def goodChunk (tok : List Char → Nat) (bound : Nat) (P : List (List Char)) : Prop :=
  P ≠ [] ∧ (sumTok tok P ≤ bound ∨ P.length = 1)

/-- A token model satisfying the separator-additivity hypothesis of the
amended C3: only non-whitespace characters count. -/
def nonWsTok (l : List Char) : Nat :=
  (l.filter (fun c => !isPyWs c)).length

/-! ## Theorems -/

/-- C6: with an empty retrieved-chunk list, `generate_answer` returns the
fixed insufficient-evidence answer with confidence low and zero
tokens/cost, and the result does not depend on the LLM oracle (the
adapter is not invoked). -/
theorem c6_empty_chunks_short_circuit (tok : List Char → Nat)
    (llm llm2 : String → String → String) (cfg : Settings) (q : String) :
    generateAnswer tok llm cfg q [] =
      { answer := insufficientAnswerText, confidence := "low",
        input_tokens := 0, output_tokens := 0, cost_usd := 0 }
    ∧ generateAnswer tok llm cfg q [] = generateAnswer tok llm2 cfg q [] :=
  ⟨rfl, rfl⟩

/-- C8: a document whose page count exceeds `max_pages_per_document` is
rejected with the size-limit error, and the run creates no chunk. -/
theorem c8_page_limit_rejected_before_chunking (tok : List Char → Nat)
    (cfg : Settings) (docId : String) (pageCount : Nat) (mdData : List PageData)
    (fileSizeBytes : Nat) (filename : String) (customTitle : Option String)
    (h : pageCount > cfg.maxPagesPerDocument) :
    processPdf tok cfg docId pageCount mdData fileSizeBytes filename customTitle
        = Except.error (pageLimitMsg pageCount cfg.maxPagesPerDocument)
      ∧ chunksOf (processPdf tok cfg docId pageCount mdData fileSizeBytes filename customTitle)
        = [] := by
  have herr : processPdf tok cfg docId pageCount mdData fileSizeBytes filename customTitle
      = Except.error (pageLimitMsg pageCount cfg.maxPagesPerDocument) := by
    unfold processPdf
    rw [if_pos h]
  exact ⟨herr, by rw [herr]; rfl⟩

/-- Witness for C8 at a concrete oversized document. -/
theorem c8_witness :
    81 > (80 : Nat)
    ∧ processPdf wordCountTok ⟨80, 600, 100, 100, 1, 0, 0⟩ "d" 81
        [⟨0, "Hello world."⟩] 12 "f.pdf" none
      = Except.error (pageLimitMsg 81 80) :=
  ⟨by decide,
    (c8_page_limit_rejected_before_chunking wordCountTok ⟨80, 600, 100, 100, 1, 0, 0⟩
      "d" 81 [⟨0, "Hello world."⟩] 12 "f.pdf" none (by decide)).1⟩

/-- C9: an empty `document_ids` allow-list is falsy in Python, so
`search` builds the same filter as `document_ids=None` and returns the
same results on every database and query. -/
theorem c9_empty_allowlist_unrestricted (db : List ScoredChunk) (userId : String)
    (limit : Nat) (minScore : ℚ) :
    search db userId limit (some []) minScore = search db userId limit none minScore := rfl

/-- C1: `VectorStoreService.search` itself only ever returns points whose
stored `user_id` equals the requested one (the `must` condition), for any
document-id filter; but the query pipeline's invocation of `search`
(query.py lines 79-85) supplies no `user_id` argument at all, so in the
pipeline the call raises `TypeError` instead of performing a
tenant-filtered search. -/
theorem c1_search_tenant_isolation_and_pipeline_type_error
    (db : List ScoredChunk) (userId : String) (limit : Nat)
    (documentIds : Option (List String)) (minScore : ℚ) :
    (search db userId limit documentIds minScore).all
        (fun r => r.user_id == userId) = true
    ∧ queryPipelineSearchCall limit documentIds minScore
      = Except.error "TypeError: VectorStoreService.search() missing 1 required positional argument: user_id" := by
  refine ⟨?_, rfl⟩
  rw [List.all_eq_true]
  intro r hr
  have hr2 : r ∈ (queryPoints db (searchFilter userId documentIds) (limit * 2)).filter
      (fun h => decide (minScore ≤ h.score)) := List.mem_of_mem_take hr
  have hr3 : r ∈ queryPoints db (searchFilter userId documentIds) (limit * 2) :=
    (List.mem_filter.mp hr2).1
  have hr4 : r ∈ db.filter (matchesFilter (searchFilter userId documentIds)) :=
    List.mem_of_mem_take hr3
  have hm : matchesFilter (searchFilter userId documentIds) r = true :=
    (List.mem_filter.mp hr4).2
  have hmust : condHolds r { key := "user_id", value := userId } = true := by
    have := (Bool.and_eq_true _ _ |>.mp hm).1
    rw [List.all_eq_true] at this
    exact this _ (by simp [searchFilter])
  have : r.user_id = userId := by
    simpa [condHolds, payloadStr] using hmust
  simpa using this

/-! ### Cost-tracker lemmas -/

theorem getTodayUsage_fst (st : TrackerState) (today now : String) :
    (getTodayUsage st today now).1 = (st today).getD (zeroUsage now) := by
  unfold getTodayUsage
  cases h : st today <;> simp

theorem getTodayUsage_counters (st : TrackerState) (today now k : String) :
    queriesAt (getTodayUsage st today now).2 k = queriesAt st k
    ∧ inputTokensAt (getTodayUsage st today now).2 k = inputTokensAt st k
    ∧ outputTokensAt (getTodayUsage st today now).2 k = outputTokensAt st k
    ∧ costAt (getTodayUsage st today now).2 k = costAt st k := by
  unfold getTodayUsage queriesAt inputTokensAt outputTokensAt costAt
  cases h : st today with
  | some u => simp
  | none =>
    by_cases hk : k = today
    · subst hk
      simp [h, zeroUsage]
    · simp [hk]

theorem trackQuery_counters (st : TrackerState) (today now : String)
    (inputTokens outputTokens : Nat) (costUsd : ℚ) (k : String) :
    (k = today →
        queriesAt (trackQuery st today now inputTokens outputTokens costUsd).2 k
          = queriesAt st k + 1
        ∧ inputTokensAt (trackQuery st today now inputTokens outputTokens costUsd).2 k
          = inputTokensAt st k + inputTokens
        ∧ outputTokensAt (trackQuery st today now inputTokens outputTokens costUsd).2 k
          = outputTokensAt st k + outputTokens
        ∧ costAt (trackQuery st today now inputTokens outputTokens costUsd).2 k
          = costAt st k + costUsd)
    ∧ (k ≠ today →
        queriesAt (trackQuery st today now inputTokens outputTokens costUsd).2 k
          = queriesAt st k
        ∧ inputTokensAt (trackQuery st today now inputTokens outputTokens costUsd).2 k
          = inputTokensAt st k
        ∧ outputTokensAt (trackQuery st today now inputTokens outputTokens costUsd).2 k
          = outputTokensAt st k
        ∧ costAt (trackQuery st today now inputTokens outputTokens costUsd).2 k
          = costAt st k) := by
  have hc := getTodayUsage_counters st today now k
  constructor
  · intro hk
    subst hk
    unfold trackQuery queriesAt inputTokensAt outputTokensAt costAt
    simp only [if_pos rfl, getTodayUsage_fst]
    cases h : st k <;> simp [h, zeroUsage, updatedUsage]
  · intro hk
    unfold trackQuery
    unfold queriesAt inputTokensAt outputTokensAt costAt at hc ⊢
    simp only [if_neg hk]
    exact hc

theorem runOp_counters_mono (cfg : Settings) (st : TrackerState) (op : TrackerOp)
    (hop : OpNonneg op) (k : String) :
    queriesAt st k ≤ queriesAt (runOp cfg st op) k
    ∧ inputTokensAt st k ≤ inputTokensAt (runOp cfg st op) k
    ∧ outputTokensAt st k ≤ outputTokensAt (runOp cfg st op) k
    ∧ costAt st k ≤ costAt (runOp cfg st op) k := by
  cases op with
  | can t n =>
    have h := getTodayUsage_counters st t n k
    have h2 : runOp cfg st (TrackerOp.can t n) = (getTodayUsage st t n).2 := by
      show (canProcessQuery cfg st t n).2 = (getTodayUsage st t n).2
      unfold canProcessQuery
      split
      · rfl
      · split <;> rfl
    rw [h2, h.1, h.2.1, h.2.2.1, h.2.2.2]
    exact ⟨le_refl _, le_refl _, le_refl _, le_refl _⟩
  | track t n i o c =>
    have h := trackQuery_counters st t n i o c k
    have h2 : runOp cfg st (TrackerOp.track t n i o c) = (trackQuery st t n i o c).2 := rfl
    rw [h2]
    by_cases hk : k = t
    · obtain ⟨h1, h2, h3, h4⟩ := h.1 hk
      rw [h1, h2, h3, h4]
      refine ⟨Nat.le_succ _, Nat.le_add_right _ _, Nat.le_add_right _ _, ?_⟩
      have : (0 : ℚ) ≤ c := hop
      linarith
    · obtain ⟨h1, h2, h3, h4⟩ := h.2 hk
      rw [h1, h2, h3, h4]
      exact ⟨le_refl _, le_refl _, le_refl _, le_refl _⟩
  | stats t n =>
    have h := getTodayUsage_counters st t n k
    have h2 : runOp cfg st (TrackerOp.stats t n) = (getTodayUsage st t n).2 := rfl
    rw [h2, h.1, h.2.1, h.2.2.1, h.2.2.2]
    exact ⟨le_refl _, le_refl _, le_refl _, le_refl _⟩

theorem runOps_counters_mono (cfg : Settings) (ops : List TrackerOp) :
    ∀ st : TrackerState, (∀ op ∈ ops, OpNonneg op) → ∀ k : String,
      queriesAt st k ≤ queriesAt (runOps cfg st ops) k
      ∧ inputTokensAt st k ≤ inputTokensAt (runOps cfg st ops) k
      ∧ outputTokensAt st k ≤ outputTokensAt (runOps cfg st ops) k
      ∧ costAt st k ≤ costAt (runOps cfg st ops) k := by
  induction ops with
  | nil =>
    intro st _ k
    exact ⟨le_refl _, le_refl _, le_refl _, le_refl _⟩
  | cons op rest ih =>
    intro st hops k
    have h1 := runOp_counters_mono cfg st op (hops op (List.mem_cons_self _ _)) k
    have h2 := ih (runOp cfg st op) (fun o ho => hops o (List.mem_cons_of_mem _ ho)) k
    have hrun : runOps cfg st (op :: rest) = runOps cfg (runOp cfg st op) rest := rfl
    rw [hrun]
    exact ⟨h1.1.trans h2.1, h1.2.1.trans h2.2.1, h1.2.2.1.trans h2.2.2.1,
      h1.2.2.2.trans h2.2.2.2⟩

theorem canProcessQuery_denied_iff (cfg : Settings) (st : TrackerState) (today now : String) :
    (canProcessQuery cfg st today now).1.1 = false ↔
      (cfg.maxDailyQueries ≤ queriesAt st today ∨ cfg.maxDailyCostUsd ≤ costAt st today) := by
  unfold canProcessQuery queriesAt costAt
  simp only [getTodayUsage_fst]
  cases h : st today with
  | some u =>
    simp only [h, Option.getD_some, Option.map_some, ge_iff_le]
    split_ifs with h1 h2 <;> simp_all
  | none =>
    simp only [h, Option.getD_none, Option.map_none, zeroUsage, ge_iff_le]
    split_ifs with h1 h2 <;> simp_all

/-- C5: `can_process_query` denies exactly when today's recorded query
count has reached `max_daily_queries` or today's accumulated cost has
reached `max_daily_cost_usd` (and the denial reason is not the "OK"
string); a denial persists across any further same-or-other-day tracker
calls with non-negative costs; and on a day key with no record yet the
check is open again, provided the configured ceilings are positive. -/
theorem c5_admission_check (cfg : Settings) (st : TrackerState)
    (today freshDay now now2 : String) (ops : List TrackerOp) :
    ((canProcessQuery cfg st today now).1.1 = false ↔
      (cfg.maxDailyQueries ≤ queriesAt st today ∨ cfg.maxDailyCostUsd ≤ costAt st today))
    ∧ ((canProcessQuery cfg st today now).1.1 = false →
        (canProcessQuery cfg st today now).1.2 ≠ "OK")
    ∧ ((∀ op ∈ ops, OpNonneg op) → (canProcessQuery cfg st today now).1.1 = false →
        (canProcessQuery cfg (runOps cfg st ops) today now2).1.1 = false)
    ∧ (st freshDay = none → 0 < cfg.maxDailyQueries → 0 < cfg.maxDailyCostUsd →
        (canProcessQuery cfg st freshDay now).1.1 = true) := by
  refine ⟨canProcessQuery_denied_iff cfg st today now, ?_, ?_, ?_⟩
  · intro hd
    unfold canProcessQuery at hd ⊢
    split_ifs at hd ⊢ with h1 h2
    · intro hc
      have hlen := congrArg String.length hc
      simp only [String.length_append] at hlen
      have e1 : ("Daily query limit (" : String).length = 19 := rfl
      have e2 : (") reached. Try again tomorrow." : String).length = 30 := rfl
      have e3 : ("OK" : String).length = 2 := rfl
      omega
    · intro hc
      have hlen := congrArg String.length hc
      simp only [String.length_append] at hlen
      have e1 : ("Daily cost limit ($" : String).length = 19 := rfl
      have e2 : (") reached. Try again tomorrow." : String).length = 30 := rfl
      have e3 : ("OK" : String).length = 2 := rfl
      omega
  · intro hops hd
    rw [canProcessQuery_denied_iff] at hd ⊢
    have hm := runOps_counters_mono cfg ops st hops today
    rcases hd with hq | hc
    · exact Or.inl (hq.trans hm.1)
    · exact Or.inr (hc.trans hm.2.2.2)
  · intro hfresh hq hc
    unfold canProcessQuery
    simp only [getTodayUsage_fst, hfresh, Option.getD_none]
    have hn1 : ¬ ((zeroUsage now).queries ≥ cfg.maxDailyQueries) := by
      have h0 : (zeroUsage now).queries = 0 := rfl
      omega
    have hn2 : ¬ ((zeroUsage now).costUsd ≥ cfg.maxDailyCostUsd) := by
      have h0 : (zeroUsage now).costUsd = 0 := rfl
      rw [ge_iff_le, h0]
      exact not_le.mpr hc
    rw [if_neg hn1, if_neg hn2]

/-- Witness for C5: limits 1 query / 1 dollar, a day that has already
recorded one query is denied and stays denied after a further tracked
query, while a fresh day key is open. -/
theorem c5_witness :
    (∀ op ∈ [TrackerOp.track "2025-01-01" "t1" 5 5 0], OpNonneg op)
    ∧ (fun k => if k = "2025-01-01" then some (⟨1, 10, 20, 0, "t0"⟩ : Usage)
        else none) "2025-01-02" = none
    ∧ (0 : Nat) < 1 ∧ (0 : ℚ) < 1
    ∧ (canProcessQuery ⟨80, 600, 100, 1, 1, 0, 0⟩
        (fun k => if k = "2025-01-01" then some ⟨1, 10, 20, 0, "t0"⟩ else none)
        "2025-01-01" "n").1.1 = false
    ∧ (canProcessQuery ⟨80, 600, 100, 1, 1, 0, 0⟩
        (runOps ⟨80, 600, 100, 1, 1, 0, 0⟩
          (fun k => if k = "2025-01-01" then some ⟨1, 10, 20, 0, "t0"⟩ else none)
          [TrackerOp.track "2025-01-01" "t1" 5 5 0])
        "2025-01-01" "n2").1.1 = false
    ∧ (canProcessQuery ⟨80, 600, 100, 1, 1, 0, 0⟩
        (fun k => if k = "2025-01-01" then some ⟨1, 10, 20, 0, "t0"⟩ else none)
        "2025-01-02" "n").1.1 = true
    ∧ (canProcessQuery ⟨80, 600, 100, 1, 1, 0, 0⟩
        (fun k => if k = "2025-01-01" then some ⟨1, 10, 20, 0, "t0"⟩ else none)
        "2025-01-01" "n").1.2 ≠ "OK" := by
  have hops : ∀ op ∈ [TrackerOp.track "2025-01-01" "t1" 5 5 0], OpNonneg op := by
    intro op hop
    rcases List.mem_singleton.mp hop with rfl
    exact le_refl 0
  have h := c5_admission_check ⟨80, 600, 100, 1, 1, 0, 0⟩
    (fun k => if k = "2025-01-01" then some ⟨1, 10, 20, 0, "t0"⟩ else none)
    "2025-01-01" "2025-01-02" "n" "n2" [TrackerOp.track "2025-01-01" "t1" 5 5 0]
  have hdenied : (canProcessQuery ⟨80, 600, 100, 1, 1, 0, 0⟩
      (fun k => if k = "2025-01-01" then some ⟨1, 10, 20, 0, "t0"⟩ else none)
      "2025-01-01" "n").1.1 = false := h.1.mpr (Or.inl (by decide))
  exact ⟨hops, by decide, by decide, by decide, hdenied,
    h.2.2.1 hops hdenied, h.2.2.2 (by decide) (by decide) (by decide), h.2.1 hdenied⟩

/-- C10: at any fixed day key the four daily counters never decrease
under any sequence of `can_process_query` / `track_query` (non-negative
arguments) / `get_usage_stats` calls, and a `track_query` call adds
exactly one to the day's query count and exactly its arguments to the
token and cost counters. -/
theorem c10_counters_monotone_and_exact (cfg : Settings) (st : TrackerState)
    (k today now : String) (ops : List TrackerOp)
    (inputTokens outputTokens : Nat) (costUsd : ℚ) :
    ((∀ op ∈ ops, OpNonneg op) →
      queriesAt st k ≤ queriesAt (runOps cfg st ops) k
      ∧ inputTokensAt st k ≤ inputTokensAt (runOps cfg st ops) k
      ∧ outputTokensAt st k ≤ outputTokensAt (runOps cfg st ops) k
      ∧ costAt st k ≤ costAt (runOps cfg st ops) k)
    ∧ (queriesAt (trackQuery st today now inputTokens outputTokens costUsd).2 today
        = queriesAt st today + 1
      ∧ inputTokensAt (trackQuery st today now inputTokens outputTokens costUsd).2 today
        = inputTokensAt st today + inputTokens
      ∧ outputTokensAt (trackQuery st today now inputTokens outputTokens costUsd).2 today
        = outputTokensAt st today + outputTokens
      ∧ costAt (trackQuery st today now inputTokens outputTokens costUsd).2 today
        = costAt st today + costUsd) := by
  refine ⟨fun hops => runOps_counters_mono cfg ops st hops k, ?_⟩
  exact (trackQuery_counters st today now inputTokens outputTokens costUsd today).1 rfl

/-! ### Chunker lemmas (claims C3 and C4) -/

theorem sumTok_append (tok : List Char → Nat) (l1 l2 : List (List Char)) :
    sumTok tok (l1 ++ l2) = sumTok tok l1 + sumTok tok l2 := by
  simp [sumTok]

theorem sumTok_nil (tok : List Char → Nat) : sumTok tok [] = 0 := rfl

theorem sumTok_singleton (tok : List Char → Nat) (p : List Char) :
    sumTok tok [p] = tok p := by
  simp [sumTok]

theorem overlapGo_spec (tok : List Char → Nat) (overlapTokens : Nat) :
    ∀ (rl acc : List (List Char)) (cnt : Nat),
      sumTok tok acc = cnt → cnt ≤ overlapTokens →
      sumTok tok (overlapGo tok overlapTokens rl acc cnt).1
          = (overlapGo tok overlapTokens rl acc cnt).2
        ∧ (overlapGo tok overlapTokens rl acc cnt).2 ≤ overlapTokens := by
  intro rl
  induction rl with
  | nil => intro acc cnt h1 h2; exact ⟨h1, h2⟩
  | cons s rest ih =>
    intro acc cnt h1 h2
    unfold overlapGo
    split_ifs with hkeep
    · exact ih (s :: acc) (cnt + tok s)
        (by simp [sumTok, ← h1, Nat.add_comm]) hkeep
    · exact ⟨h1, h2⟩

theorem overlapGo_shape (tok : List Char → Nat) (overlapTokens : Nat) :
    ∀ (rl acc : List (List Char)) (cnt : Nat),
      ∃ k, (overlapGo tok overlapTokens rl acc cnt).1 = (rl.take k).reverse ++ acc := by
  intro rl
  induction rl with
  | nil => intro acc cnt; exact ⟨0, rfl⟩
  | cons s rest ih =>
    intro acc cnt
    unfold overlapGo
    split_ifs with hkeep
    · obtain ⟨k, hk⟩ := ih (s :: acc) (cnt + tok s)
      refine ⟨k + 1, ?_⟩
      rw [hk]
      simp [List.take_cons, List.append_assoc]
    · exact ⟨0, rfl⟩

theorem overlapOf_sum (tok : List Char → Nat) (overlapTokens : Nat)
    (cur : List (List Char)) :
    sumTok tok (overlapOf tok overlapTokens cur).1 = (overlapOf tok overlapTokens cur).2
    ∧ (overlapOf tok overlapTokens cur).2 ≤ overlapTokens :=
  overlapGo_spec tok overlapTokens cur.reverse [] 0 rfl (Nat.zero_le _)

theorem overlapOf_suffix (tok : List Char → Nat) (overlapTokens : Nat)
    (cur : List (List Char)) :
    (overlapOf tok overlapTokens cur).1 <:+ cur := by
  obtain ⟨k, hk⟩ := overlapGo_shape tok overlapTokens cur.reverse [] 0
  unfold overlapOf
  rw [hk, List.append_nil]
  have hpre : cur.reverse.take k <+: cur.reverse := List.take_prefix _ _
  have h2 := (@List.reverse_suffix _ (cur.reverse.take k) cur.reverse).mpr hpre
  rwa [List.reverse_reverse] at h2

theorem overlapOf_ne_nil (tok : List Char → Nat) (overlapTokens : Nat)
    (cur : List (List Char)) (hne : cur ≠ [])
    (hlast : tok (cur.getLast hne) ≤ overlapTokens) :
    (overlapOf tok overlapTokens cur).1 ≠ [] := by
  have hrev : cur.reverse = cur.getLast hne :: cur.dropLast.reverse := by
    conv_lhs => rw [← List.dropLast_append_getLast hne]
    rw [List.reverse_append]
    rfl
  unfold overlapOf
  rw [hrev]
  unfold overlapGo
  rw [if_pos (by simpa using hlast)]
  obtain ⟨k, hk⟩ := overlapGo_shape tok overlapTokens cur.dropLast.reverse
    [cur.getLast hne] (0 + tok (cur.getLast hne))
  rw [hk]
  simp

theorem procWords_inv (tok : List Char → Nat) (maxTokens overlapTokens : Nat)
    (hmono : ∀ w, tok w ≤ tok (w ++ [' '])) :
    ∀ (ws : List (List Char)) (chunks : List (List (List Char)))
      (temp : List (List Char)) (tempTok : Nat),
      (∀ P ∈ chunks, goodChunk tok (maxTokens + overlapTokens) P) →
      sumTok tok temp ≤ tempTok →
      (tempTok ≤ maxTokens ∨ temp.length = 1) →
      (temp = [] → tempTok = 0) →
      (∀ P ∈ (procWords tok maxTokens ws chunks temp tempTok).1,
        goodChunk tok (maxTokens + overlapTokens) P)
      ∧ sumTok tok (procWords tok maxTokens ws chunks temp tempTok).2.1
          ≤ (procWords tok maxTokens ws chunks temp tempTok).2.2
      ∧ ((procWords tok maxTokens ws chunks temp tempTok).2.2 ≤ maxTokens
          ∨ (procWords tok maxTokens ws chunks temp tempTok).2.1.length = 1)
      ∧ ((procWords tok maxTokens ws chunks temp tempTok).2.1 = []
          → (procWords tok maxTokens ws chunks temp tempTok).2.2 = 0) := by
  intro ws
  induction ws with
  | nil =>
    intro chunks temp tempTok hc ht hb hz
    exact ⟨hc, ht, hb, hz⟩
  | cons w ws ih =>
    intro chunks temp tempTok hc ht hb hz
    unfold procWords
    by_cases hflush : tempTok + tok (w ++ [' ']) > maxTokens
    · rw [if_pos hflush]
      refine ih _ [w] (tok (w ++ [' '])) ?_ ?_ (Or.inr rfl) (by simp)
      · intro P hP
        rcases List.mem_append.mp hP with hP | hP
        · exact hc P hP
        · by_cases hte : temp.isEmpty
          · rw [if_pos hte] at hP
            cases hP
          · rw [if_neg hte] at hP
            rcases List.mem_singleton.mp hP with rfl
            refine ⟨by simpa using hte, ?_⟩
            rcases hb with hb | hb
            · exact Or.inl (ht.trans (hb.trans (Nat.le_add_right _ _)))
            · exact Or.inr hb
      · rw [sumTok_singleton]
        exact hmono w
    · rw [if_neg hflush]
      refine ih _ (temp ++ [w]) (tempTok + tok (w ++ [' '])) hc ?_ (Or.inl (by omega)) (by simp)
      rw [sumTok_append, sumTok_singleton]
      exact Nat.add_le_add ht (hmono w)

theorem chunkLoop_good (tok : List Char → Nat) (maxTokens overlapTokens : Nat)
    (hmono : ∀ w, tok w ≤ tok (w ++ [' '])) :
    ∀ (sents : List (List Char)) (chunks : List (List (List Char)))
      (cur : List (List Char)) (curTok : Nat),
      (∀ P ∈ chunks, goodChunk tok (maxTokens + overlapTokens) P) →
      sumTok tok cur ≤ curTok →
      (curTok ≤ maxTokens + overlapTokens ∨ cur.length = 1) →
      (cur = [] → curTok = 0) →
      ∀ P ∈ chunkLoop tok maxTokens overlapTokens sents chunks cur curTok,
        goodChunk tok (maxTokens + overlapTokens) P := by
  intro sents
  induction sents with
  | nil =>
    intro chunks cur curTok hc ht hb hz
    unfold chunkLoop
    by_cases hce : cur.isEmpty
    · rw [if_pos hce]
      exact hc
    · rw [if_neg hce]
      intro P hP
      rcases List.mem_append.mp hP with hP | hP
      · exact hc P hP
      · rcases List.mem_singleton.mp hP with rfl
        exact ⟨by simpa using hce,
          by rcases hb with hb | hb; exact Or.inl (ht.trans hb); exact Or.inr hb⟩
  | cons s rest ih =>
    intro chunks cur curTok hc ht hb hz
    unfold chunkLoop
    by_cases hbig : tok s > maxTokens
    · -- word-splitting branch
      rw [if_pos hbig]
      have hc1 : ∀ P ∈ (if cur.isEmpty then chunks else chunks ++ [cur]),
          goodChunk tok (maxTokens + overlapTokens) P := by
        by_cases hce : cur.isEmpty
        · rw [if_pos hce]
          exact hc
        · rw [if_neg hce]
          intro P hP
          rcases List.mem_append.mp hP with hP | hP
          · exact hc P hP
          · rcases List.mem_singleton.mp hP with rfl
            exact ⟨by simpa using hce,
              by rcases hb with hb | hb; exact Or.inl (ht.trans hb); exact Or.inr hb⟩
      have hpw := procWords_inv tok maxTokens overlapTokens hmono (pyWordsL s)
        (if cur.isEmpty then chunks else chunks ++ [cur]) [] 0 hc1
        (by rw [sumTok_nil]) (Or.inl (Nat.zero_le _)) (fun _ => rfl)
      exact ih _ _ _ hpw.1 hpw.2.1
        (by rcases hpw.2.2.1 with h | h; exact Or.inl (h.trans (Nat.le_add_right _ _)); exact Or.inr h)
        hpw.2.2.2
    · rw [if_neg hbig]
      by_cases hover : curTok + tok s > maxTokens
      · -- flush-with-overlap branch
        rw [if_pos hover]
        have hcur_ne : cur ≠ [] := by
          intro hnil
          rw [hz hnil] at hover
          omega
        refine ih _ _ _ ?_ ?_ ?_ (by simp)
        · intro P hP
          rcases List.mem_append.mp hP with hP | hP
          · exact hc P hP
          · rcases List.mem_singleton.mp hP with rfl
            exact ⟨hcur_ne,
              by rcases hb with hb | hb; exact Or.inl (ht.trans hb); exact Or.inr hb⟩
        · rw [sumTok_append, sumTok_singleton, (overlapOf_sum tok overlapTokens cur).1]
        · have h1 := (overlapOf_sum tok overlapTokens cur).2
          omega
      · -- plain append branch
        rw [if_neg hover]
        refine ih _ _ _ hc ?_ (Or.inl (by omega)) (by simp)
        rw [sumTok_append, sumTok_singleton]
        exact Nat.add_le_add ht (le_refl _)

theorem nonWsTok_add (a b : List Char) : nonWsTok (a ++ ' ' :: b) = nonWsTok a + nonWsTok b := by
  simp [nonWsTok, List.filter_append, isPyWs]

theorem tok_joinSp (tok : List Char → Nat)
    (hadd : ∀ a b, tok (a ++ ' ' :: b) = tok a + tok b) :
    ∀ P : List (List Char), P ≠ [] → tok (joinSp P) = sumTok tok P := by
  intro P
  induction P with
  | nil => intro h; exact absurd rfl h
  | cons p ps ih =>
    intro _
    cases ps with
    | nil => simp [joinSp, sumTok]
    | cons q ps2 =>
      have : joinSp (p :: q :: ps2) = p ++ ' ' :: joinSp (q :: ps2) := rfl
      rw [this, hadd, ih (by simp)]
      simp [sumTok]

/-- C3 (amended): for every input text, every token model that is
additive across the space separator, and every configuration, each
emitted chunk's token count is at most `max_tokens + overlap_tokens`
(the overlap carried into a fresh chunk can push it past `max_tokens` by
up to the overlap budget), except chunks made of one single indivisible
piece. -/
theorem c3_chunk_token_bound (tok : List Char → Nat)
    (hadd : ∀ a b, tok (a ++ ' ' :: b) = tok a + tok b)
    (maxTokens overlapTokens : Nat) (text : String) :
    ∀ P ∈ splitIntoChunksPieces tok maxTokens overlapTokens text,
      tok (joinSp P) ≤ maxTokens + overlapTokens ∨ P.length = 1 := by
  intro P hP
  have hmono : ∀ w, tok w ≤ tok (w ++ [' ']) := by
    intro w
    have := hadd w []
    omega
  unfold splitIntoChunksPieces at hP
  split_ifs at hP
  · cases hP
  · have hG := chunkLoop_good tok maxTokens overlapTokens hmono (splitSentences text)
      [] [] 0 (by intro Q hQ; cases hQ) (by rw [sumTok_nil]) (Or.inl (Nat.zero_le _))
      (fun _ => rfl) P hP
    rcases hG.2 with h | h
    · exact Or.inl (by rw [tok_joinSp tok hadd P hG.1]; exact h)
    · exact Or.inr h

/-- Witness for C3 (amended) at a concrete text and configuration. -/
theorem c3_witness :
    (("ab.").data :: [] : List (List Char)) ∈ splitIntoChunksPieces nonWsTok 4 2 "ab. cd."
    ∧ (nonWsTok (joinSp [("ab.").data]) ≤ 4 + 2 ∨ ([("ab.").data] : List (List Char)).length = 1) :=
  ⟨by decide, c3_chunk_token_bound nonWsTok nonWsTok_add 4 2 "ab. cd." [("ab.").data] (by decide)⟩

/-- C3 counterexample: with a word-count token model, `max_tokens = 10`
and `overlap_tokens = 9`, the second emitted chunk joins two whole
sentences and counts 11 tokens, exceeding `max_tokens` although it is
not a single indivisible unit. -/
theorem c3_counterexample :
    (splitIntoChunks wordCountTok 10 9 "a b c d e f. g h i j k. l m n o p.").get? 1
      = some "a b c d e f. g h i j k."
    ∧ wordCountTok ("a b c d e f. g h i j k.").data = 11
    ∧ 10 < 11
    ∧ (splitIntoChunksPieces wordCountTok 10 9 "a b c d e f. g h i j k. l m n o p.").get? 1
      = some [("a b c d e f.").data, ("g h i j k.").data]
    ∧ 1 < ([("a b c d e f.").data, ("g h i j k.").data] : List (List Char)).length := by
  refine ⟨by decide, by decide, by decide, by decide, by decide⟩

theorem chain'_append_singleton {α : Type} {R : α → α → Prop} {l : List α} {a b : α}
    (h : List.Chain' R (l ++ [a])) (hab : R a b) :
    List.Chain' R ((l ++ [a]) ++ [b]) := by
  rw [List.chain'_append]
  refine ⟨h, List.chain'_singleton b, ?_⟩
  intro x hx y hy
  rw [List.getLast?_concat] at hx
  cases hx
  cases hy
  exact hab

theorem chain'_update_last {α : Type} {R : α → α → Prop} {l : List α} {a a2 : α}
    (h : List.Chain' R (l ++ [a])) (hmap : ∀ x, R x a → R x a2) :
    List.Chain' R (l ++ [a2]) := by
  rw [List.chain'_append] at h ⊢
  refine ⟨h.1, List.chain'_singleton a2, ?_⟩
  intro x hx y hy
  cases hy
  exact hmap x (h.2.2 x hx a rfl)

theorem chunkLoop_chain (tok : List Char → Nat) (maxTokens overlapTokens : Nat) :
    ∀ (sents : List (List Char)) (chunks : List (List (List Char)))
      (cur : List (List Char)) (curTok : Nat),
      (∀ s ∈ sents, tok s ≤ maxTokens ∧ tok s ≤ overlapTokens) →
      (∀ p ∈ cur, tok p ≤ overlapTokens) →
      curTok = sumTok tok cur →
      (cur = [] → chunks = []) →
      (cur ≠ [] → List.Chain' (link tok overlapTokens) (chunks ++ [cur])) →
      List.Chain' (link tok overlapTokens)
        (chunkLoop tok maxTokens overlapTokens sents chunks cur curTok) := by
  intro sents
  induction sents with
  | nil =>
    intro chunks cur curTok hS hcur htok hemp hchain
    unfold chunkLoop
    by_cases hce : cur.isEmpty
    · rw [if_pos hce, hemp (by simpa using hce)]
      exact List.chain'_nil
    · rw [if_neg hce]
      exact hchain (by simpa using hce)
  | cons s rest ih =>
    intro chunks cur curTok hS hcur htok hemp hchain
    have hs := hS s (List.mem_cons_self _ _)
    have hSrest : ∀ t ∈ rest, tok t ≤ maxTokens ∧ tok t ≤ overlapTokens :=
      fun t ht => hS t (List.mem_cons_of_mem _ ht)
    unfold chunkLoop
    rw [if_neg (by omega : ¬ tok s > maxTokens)]
    by_cases hover : curTok + tok s > maxTokens
    · -- flush with overlap
      rw [if_pos hover]
      have hcur_ne : cur ≠ [] := by
        intro hnil
        rw [htok, hnil, sumTok_nil] at hover
        omega
      have hov_suffix := overlapOf_suffix tok overlapTokens cur
      have hov_sum := overlapOf_sum tok overlapTokens cur
      have hov_ne : (overlapOf tok overlapTokens cur).1 ≠ [] :=
        overlapOf_ne_nil tok overlapTokens cur hcur_ne
          (hcur _ (List.getLast_mem hcur_ne))
      refine ih _ _ _ hSrest ?_ ?_ (by simp) ?_
      · intro p hp
        rcases List.mem_append.mp hp with hp | hp
        · exact hcur p (hov_suffix.subset hp)
        · rcases List.mem_singleton.mp hp with rfl
          exact hs.2
      · rw [sumTok_append, sumTok_singleton, hov_sum.1]
      · intro _
        refine chain'_append_singleton (hchain hcur_ne) ?_
        exact ⟨(overlapOf tok overlapTokens cur).1, hov_ne,
          List.prefix_append _ _, hov_suffix, le_of_eq_of_le hov_sum.1 hov_sum.2⟩
    · -- plain append
      rw [if_neg hover]
      refine ih _ _ _ hSrest ?_ ?_ (by simp) ?_
      · intro p hp
        rcases List.mem_append.mp hp with hp | hp
        · exact hcur p hp
        · rcases List.mem_singleton.mp hp with rfl
          exact hs.2
      · rw [sumTok_append, sumTok_singleton, htok]
      · intro _
        by_cases hnil : cur = []
        · rw [hemp hnil, hnil]
          simp
        · refine chain'_update_last (hchain hnil) ?_
          rintro x ⟨pre, hne, hpre, hsuf, hsum⟩
          exact ⟨pre, hne, hpre.trans (List.prefix_append _ _), hsuf, hsum⟩

/-- C4 (amended): when every sentence of the text fits both the chunk
budget and the overlap budget, each chunk after the first begins with a
non-empty run of whole sentences that is a suffix of the previous
chunk's sentence sequence, with cumulative token count at most
`overlap_tokens`.  (Without the per-sentence bound the shared prefix can
be empty — see the counterexample.) -/
theorem c4_overlap_chain (tok : List Char → Nat) (maxTokens overlapTokens : Nat)
    (text : String) (hO : 0 < overlapTokens)
    (hS : ∀ s ∈ splitSentences text, tok s ≤ maxTokens ∧ tok s ≤ overlapTokens) :
    List.Chain' (link tok overlapTokens)
      (splitIntoChunksPieces tok maxTokens overlapTokens text) := by
  unfold splitIntoChunksPieces
  split_ifs
  · exact List.chain'_nil
  · exact chunkLoop_chain tok maxTokens overlapTokens (splitSentences text) [] [] 0 hS
      (by intro p hp; cases hp) rfl (fun _ => rfl) (fun h => absurd rfl h)

/-- Witness for C4 (amended) at a concrete text and configuration. -/
theorem c4_witness :
    (0 : Nat) < 3
    ∧ List.Chain' (link nonWsTok 3) (splitIntoChunksPieces nonWsTok 4 3 "ab. cd.") :=
  ⟨by decide, c4_overlap_chain nonWsTok 4 3 "ab. cd." (by decide) (by decide)⟩

/-- C4 counterexample: with a word-count token model, `max_tokens = 8`
and `overlap_tokens = 1 > 0`, the text produces two chunks whose second
chunk shares no non-empty sentence run with the first within the overlap
budget: the previous chunk's only sentence already exceeds the budget,
so the overlap kept is empty. -/
theorem c4_counterexample :
    splitIntoChunksPieces wordCountTok 8 1 "a b c d e. f g h i j."
      = [[("a b c d e.").data], [("f g h i j.").data]]
    ∧ (0 : Nat) < 1
    ∧ ¬ link wordCountTok 1 [("a b c d e.").data] [("f g h i j.").data] := by
  refine ⟨by decide, by decide, ?_⟩
  rintro ⟨pre, hne, hpre, hsuf, hsum⟩
  have hpre_eq : pre = [("a b c d e.").data] := by
    rcases List.suffix_cons_iff.mp hsuf with heq | hnil
    · exact heq
    · exact absurd (List.suffix_nil.mp hnil) hne
  subst hpre_eq
  rcases hpre with ⟨t2, ht2⟩
  have : ("a b c d e.").data = ("f g h i j.").data := by
    have := congrArg (fun l => l.head?) ht2
    simpa using this
  exact absurd this (by decide)

/-! ### Confidence-parser lemmas (claim C7) -/

theorem startsWithL_iff (pre : List Char) : ∀ l : List Char,
    startsWithL pre l = true ↔ ∃ t, l = pre ++ t := by
  induction pre with
  | nil =>
    intro l
    simp [startsWithL]
  | cons p ps ih =>
    intro l
    cases l with
    | nil =>
      simp [startsWithL]
    | cons c cs =>
      simp only [startsWithL, Bool.and_eq_true, decide_eq_true_eq, List.cons_append,
        List.cons.injEq]
      constructor
      · rintro ⟨rfl, h⟩
        rcases (ih cs).mp h with ⟨t, rfl⟩
        exact ⟨t, rfl, rfl⟩
      · rintro ⟨t, h1, h2⟩
        exact ⟨h1.symm, (ih cs).mpr ⟨t, h2⟩⟩

theorem dropWhile_ws_append (w : List Char) (hw : ∀ c ∈ w, isPyWs c) :
    ∀ r : List Char, (w ++ r).dropWhile isPyWs = r.dropWhile isPyWs := by
  induction w with
  | nil => intro r; rfl
  | cons c cs ih =>
    intro r
    have hc : isPyWs c = true := hw c (List.mem_cons_self _ _)
    simp only [List.cons_append, List.dropWhile_cons, hc, if_true]
    exact ih (fun d hd => hw d (List.mem_cons_of_mem _ hd)) r

theorem markerHere_at (lvl : String) (hlvl : lvl ∈ levels) (w b : List Char)
    (hw : ∀ c ∈ w, isPyWs c) :
    markerHere (("confidence:").data ++ w ++ lvl.data ++ b) = some lvl := by
  unfold markerHere
  rw [if_pos ((startsWithL_iff _ _).mpr ⟨w ++ lvl.data ++ b, by simp [List.append_assoc]⟩)]
  have hdrop : (("confidence:").data ++ w ++ lvl.data ++ b).drop (("confidence:").data.length)
      = w ++ (lvl.data ++ b) := by
    have : ("confidence:").data ++ w ++ lvl.data ++ b
        = ("confidence:").data ++ (w ++ (lvl.data ++ b)) := by simp [List.append_assoc]
    rw [this, List.drop_left]
  rw [hdrop, dropWhile_ws_append w hw]
  have hcases : lvl = "high" ∨ lvl = "medium" ∨ lvl = "low" := by
    simpa [levels] using hlvl
  rcases hcases with rfl | rfl | rfl
  · have h1 : (("high" : String).data ++ b).dropWhile isPyWs = ("high").data ++ b := by
      show (('h' :: ("igh").data) ++ b).dropWhile isPyWs = _
      rw [List.cons_append, List.dropWhile_cons]
      simp [isPyWs]
    rw [h1, if_pos ((startsWithL_iff _ _).mpr ⟨b, rfl⟩)]
  · have h1 : (("medium" : String).data ++ b).dropWhile isPyWs = ("medium").data ++ b := by
      show (('m' :: ("edium").data) ++ b).dropWhile isPyWs = _
      rw [List.cons_append, List.dropWhile_cons]
      simp [isPyWs]
    have h2 : startsWithL ("high").data (("medium" : String).data ++ b) = false := by
      show startsWithL ('h' :: ("igh").data) ('m' :: (("edium").data ++ b)) = false
      simp [startsWithL]
    rw [h1, if_neg (by rw [h2]; exact Bool.false_ne_true),
      if_pos ((startsWithL_iff _ _).mpr ⟨b, rfl⟩)]
  · have h1 : (("low" : String).data ++ b).dropWhile isPyWs = ("low").data ++ b := by
      show (('l' :: ("ow").data) ++ b).dropWhile isPyWs = _
      rw [List.cons_append, List.dropWhile_cons]
      simp [isPyWs]
    have h2 : startsWithL ("high").data (("low" : String).data ++ b) = false := by
      show startsWithL ('h' :: ("igh").data) ('l' :: (("ow").data ++ b)) = false
      simp [startsWithL]
    have h3 : startsWithL ("medium").data (("low" : String).data ++ b) = false := by
      show startsWithL ('m' :: ("edium").data) ('l' :: (("ow").data ++ b)) = false
      simp [startsWithL]
    rw [h1, if_neg (by rw [h2]; exact Bool.false_ne_true),
      if_neg (by rw [h3]; exact Bool.false_ne_true),
      if_pos ((startsWithL_iff _ _).mpr ⟨b, rfl⟩)]

theorem markerHere_sound (l : List Char) (lvl : String)
    (h : markerHere l = some lvl) : MarkerIn l lvl := by
  unfold markerHere at h
  by_cases hsw : startsWithL ("confidence:").data l = true
  · rw [if_pos hsw] at h
    obtain ⟨t, rfl⟩ := (startsWithL_iff _ _).mp hsw
    rw [List.drop_left] at h
    have ht : t = t.takeWhile isPyWs ++ t.dropWhile isPyWs :=
      (List.takeWhile_append_dropWhile _ _).symm
    have hws : ∀ c ∈ t.takeWhile isPyWs, isPyWs c := fun c hc => List.mem_takeWhile_imp hc
    split_ifs at h with h1 h2 h3
    · obtain ⟨t2, ht2⟩ := (startsWithL_iff _ _).mp h1
      cases h
      exact ⟨by simp [levels], [], t.takeWhile isPyWs, t2,
        by rw [List.nil_append]; nth_rewrite 1 [ht]; rw [ht2]; simp [List.append_assoc], hws⟩
    · obtain ⟨t2, ht2⟩ := (startsWithL_iff _ _).mp h2
      cases h
      exact ⟨by simp [levels], [], t.takeWhile isPyWs, t2,
        by rw [List.nil_append]; nth_rewrite 1 [ht]; rw [ht2]; simp [List.append_assoc], hws⟩
    · obtain ⟨t2, ht2⟩ := (startsWithL_iff _ _).mp h3
      cases h
      exact ⟨by simp [levels], [], t.takeWhile isPyWs, t2,
        by rw [List.nil_append]; nth_rewrite 1 [ht]; rw [ht2]; simp [List.append_assoc], hws⟩
  · rw [if_neg hsw] at h
    cases h

theorem findMarker_sound : ∀ (l : List Char) (lvl : String),
    findMarker l = some lvl → MarkerIn l lvl := by
  intro l
  induction l with
  | nil => intro lvl h; cases h
  | cons c rest ih =>
    intro lvl h
    unfold findMarker at h
    cases hm : markerHere (c :: rest) with
    | some v =>
      rw [hm] at h
      cases h
      exact markerHere_sound _ _ hm
    | none =>
      rw [hm] at h
      obtain ⟨hmem, a, w, b, heq, hws⟩ := ih lvl h
      exact ⟨hmem, c :: a, w, b, by simp [heq, List.append_assoc], hws⟩

theorem findMarker_isSome_of_markerIn (l : List Char) (lvl : String)
    (h : MarkerIn l lvl) : (findMarker l).isSome = true := by
  obtain ⟨hmem, a, w, b, heq, hws⟩ := h
  subst heq
  induction a with
  | nil =>
    have hm := markerHere_at lvl hmem w b hws
    have hcons : ([] : List Char) ++ ("confidence:").data ++ w ++ lvl.data ++ b
        = 'c' :: (("onfidence:").data ++ w ++ lvl.data ++ b) := by
      simp [List.append_assoc]
    rw [hcons]
    have hm2 : markerHere ('c' :: (("onfidence:").data ++ w ++ lvl.data ++ b)) = some lvl := by
      rw [← hcons]
      simpa using hm
    show (match markerHere ('c' :: (("onfidence:").data ++ w ++ lvl.data ++ b)) with
      | some v => some v
      | none => findMarker (("onfidence:").data ++ w ++ lvl.data ++ b)).isSome = true
    rw [hm2]
    rfl
  | cons x a ih =>
    have hx : (x :: a) ++ ("confidence:").data ++ w ++ lvl.data ++ b
        = x :: (a ++ ("confidence:").data ++ w ++ lvl.data ++ b) := by
      simp [List.append_assoc]
    rw [hx]
    show (match markerHere (x :: (a ++ ("confidence:").data ++ w ++ lvl.data ++ b)) with
      | some v => some v
      | none => findMarker (a ++ ("confidence:").data ++ w ++ lvl.data ++ b)).isSome = true
    cases hm : markerHere (x :: (a ++ ("confidence:").data ++ w ++ lvl.data ++ b)) with
    | some v => rfl
    | none => exact ih

theorem markerIn_substring (lw : List Char) (lvl : String) (h : MarkerIn lw lvl) :
    lvl.data <:+: lw := by
  obtain ⟨_, a, w, b, heq, _⟩ := h
  exact ⟨a ++ ("confidence:").data ++ w, b, by simp [heq, List.append_assoc]⟩

/-- C7: confidence parsing of an answer text: when the lowered text
contains a `confidence: high|medium|low` marker (and all markers in the
text name the same level), that explicit level is returned, overriding
any phrase inference; when no marker is present, an insufficiency phrase
gives low, otherwise an explicit/clear-statement phrase gives high,
otherwise medium. -/
theorem c7_parse_confidence (s : String) :
    (∀ lvl, MarkerIn (pyLower s) lvl →
      (∀ lvl2, MarkerIn (pyLower s) lvl2 → lvl2 = lvl) →
      parseConfidence s = lvl)
    ∧ ((¬ ∃ lvl, MarkerIn (pyLower s) lvl) →
        ((("cannot find sufficient").data <:+: pyLower s
            ∨ ("insufficient").data <:+: pyLower s) →
          parseConfidence s = "low")
        ∧ (¬ (("cannot find sufficient").data <:+: pyLower s
            ∨ ("insufficient").data <:+: pyLower s) →
          (("clearly").data <:+: pyLower s ∨ ("explicitly").data <:+: pyLower s) →
          parseConfidence s = "high")
        ∧ (¬ (("cannot find sufficient").data <:+: pyLower s
            ∨ ("insufficient").data <:+: pyLower s) →
          ¬ (("clearly").data <:+: pyLower s ∨ ("explicitly").data <:+: pyLower s) →
          parseConfidence s = "medium")) := by
  constructor
  · intro lvl hin huniq
    obtain ⟨lvl0, hfind⟩ := Option.isSome_iff_exists.mp
      (findMarker_isSome_of_markerIn (pyLower s) lvl hin)
    have heq0 : lvl0 = lvl := huniq lvl0 (findMarker_sound _ _ hfind)
    subst heq0
    unfold parseConfidence
    rw [hfind]
  · intro hno
    have hfm : findMarker (pyLower s) = none := by
      cases hf : findMarker (pyLower s) with
      | none => rfl
      | some v => exact absurd ⟨v, findMarker_sound _ _ hf⟩ hno
    refine ⟨?_, ?_, ?_⟩
    · intro h1
      unfold parseConfidence
      rw [hfm, if_pos h1]
    · intro h1 h2
      unfold parseConfidence
      rw [hfm, if_neg h1, if_pos h2]
    · intro h1 h2
      unfold parseConfidence
      rw [hfm, if_neg h1, if_neg h2]

/-- Witness for C7: an answer carrying an explicit upper-case marker
parses to that level even though it contains the word "clearly". -/
theorem c7_witness :
    parseConfidence "It is clearly stated. Confidence: HIGH" = "high" := by
  have hin : MarkerIn (pyLower "It is clearly stated. Confidence: HIGH") "high" := by
    refine ⟨by simp [levels], ?_⟩
    exact ⟨("it is clearly stated. ").data, [' '], [], by decide, by decide⟩
  have huniq : ∀ lvl2, MarkerIn (pyLower "It is clearly stated. Confidence: HIGH") lvl2 →
      lvl2 = "high" := by
    rintro lvl2 ⟨hmem, hrest⟩
    have hinf := markerIn_substring _ lvl2 ⟨hmem, hrest⟩
    rcases (by simpa [levels] using hmem : lvl2 = "high" ∨ lvl2 = "medium" ∨ lvl2 = "low")
      with rfl | rfl | rfl
    · rfl
    · exact absurd hinf (by decide)
    · exact absurd hinf (by decide)
  exact (c7_parse_confidence "It is clearly stated. Confidence: HIGH").1 "high" hin huniq

/-! ### PDF-processing lemmas (claim C2) -/

theorem processPage_docid_texts (tok : List Char → Nat) (cfg : Settings)
    (d1 d2 title : String) (pd : PageData) (a1 a2 : List Chunk × List String)
    (ht : a1.1.map Chunk.text = a2.1.map Chunk.text) (hs : a1.2 = a2.2) :
    (processPage tok cfg d1 title a1 pd).1.map Chunk.text
      = (processPage tok cfg d2 title a2 pd).1.map Chunk.text
    ∧ (processPage tok cfg d1 title a1 pd).2 = (processPage tok cfg d2 title a2 pd).2 := by
  unfold processPage
  split_ifs with hblank
  · exact ⟨ht, hs⟩
  · simp only []
    refine ⟨?_, by rw [hs]⟩
    rw [List.map_append, List.map_append, ht]
    congr 1
    rw [List.map_filterMap, List.map_filterMap]
    apply List.filterMap_congr
    intro p _
    by_cases hempty : (String.mk (pyStripL p.2.data)).isEmpty
    · rw [if_pos hempty, if_pos hempty]
    · rw [if_neg hempty, if_neg hempty]
      rfl

theorem foldl_processPage_docid_texts (tok : List Char → Nat) (cfg : Settings)
    (d1 d2 title : String) (md : List PageData) :
    ∀ a1 a2 : List Chunk × List String,
      a1.1.map Chunk.text = a2.1.map Chunk.text → a1.2 = a2.2 →
      (md.foldl (processPage tok cfg d1 title) a1).1.map Chunk.text
        = (md.foldl (processPage tok cfg d2 title) a2).1.map Chunk.text
      ∧ (md.foldl (processPage tok cfg d1 title) a1).2
        = (md.foldl (processPage tok cfg d2 title) a2).2 := by
  induction md with
  | nil => intro a1 a2 ht hs; exact ⟨ht, hs⟩
  | cons pd rest ih =>
    intro a1 a2 ht hs
    have hstep := processPage_docid_texts tok cfg d1 d2 title pd a1 a2 ht hs
    exact ih _ _ hstep.1 hstep.2

theorem processPage_id_format (tok : List Char → Nat) (cfg : Settings)
    (d title : String) (pd : PageData) (acc : List Chunk × List String)
    (hacc : ∀ ch ∈ acc.1, ∃ i, ch.chunk_id = chunkIdFmt d ch.page_number i) :
    ∀ ch ∈ (processPage tok cfg d title acc pd).1,
      ∃ i, ch.chunk_id = chunkIdFmt d ch.page_number i := by
  unfold processPage
  split_ifs with hblank
  · exact hacc
  · intro ch hch
    simp only [List.mem_append] at hch
    rcases hch with hch | hch
    · exact hacc ch hch
    · rcases List.mem_filterMap.mp hch with ⟨p, _, hp⟩
      by_cases hempty : (String.mk (pyStripL p.2.data)).isEmpty
      · rw [if_pos hempty] at hp
        cases hp
      · rw [if_neg hempty] at hp
        cases hp
        exact ⟨p.1, rfl⟩

theorem foldl_processPage_id_format (tok : List Char → Nat) (cfg : Settings)
    (d title : String) (md : List PageData) :
    ∀ acc : List Chunk × List String,
      (∀ ch ∈ acc.1, ∃ i, ch.chunk_id = chunkIdFmt d ch.page_number i) →
      ∀ ch ∈ (md.foldl (processPage tok cfg d title) acc).1,
        ∃ i, ch.chunk_id = chunkIdFmt d ch.page_number i := by
  induction md with
  | nil => intro acc hacc; exact hacc
  | cons pd rest ih =>
    intro acc hacc
    exact ih _ (processPage_id_format tok cfg d title pd acc hacc)

/-- C2 (amended): for byte-identical document input and configuration,
re-processing yields byte-identical chunk texts, and every chunk id has
the deterministic form `{document_id}_p{page}_c{ordinal}` — but the
`document_id` is a fresh `uuid.uuid4()` of the run (pdf_processor.py
line 137), so the ids of two runs agree only up to that generated id and
are not byte-identical across runs. -/
theorem c2_texts_deterministic_ids_formatted (tok : List Char → Nat) (cfg : Settings)
    (d1 d2 : String) (pageCount : Nat) (mdData : List PageData)
    (fileSizeBytes : Nat) (filename : String) (customTitle : Option String) :
    chunkTexts (processPdf tok cfg d1 pageCount mdData fileSizeBytes filename customTitle)
      = chunkTexts (processPdf tok cfg d2 pageCount mdData fileSizeBytes filename customTitle)
    ∧ ∀ ch ∈ chunksOf (processPdf tok cfg d1 pageCount mdData fileSizeBytes filename customTitle),
        ∃ i, ch.chunk_id = chunkIdFmt d1 ch.page_number i := by
  unfold processPdf
  split_ifs with hlimit
  · exact ⟨rfl, by intro ch hch; cases hch⟩
  · constructor
    · unfold chunkTexts chunksOf
      exact (foldl_processPage_docid_texts tok cfg d1 d2
        (docTitle filename customTitle) mdData ([], []) ([], []) rfl rfl).1
    · unfold chunksOf
      exact foldl_processPage_id_format tok cfg d1 (docTitle filename customTitle)
        mdData ([], []) (by intro ch hch; cases hch)

/-- Witness for C2 (amended) at a concrete one-page document. -/
theorem c2_witness :
    chunkTexts (processPdf wordCountTok ⟨80, 600, 100, 100, 1, 0, 0⟩ "a" 1
        [⟨0, "Hello world."⟩] 12 "f.pdf" none)
      = chunkTexts (processPdf wordCountTok ⟨80, 600, 100, 100, 1, 0, 0⟩ "b" 1
        [⟨0, "Hello world."⟩] 12 "f.pdf" none)
    ∧ (⟨"a_p1_c0", "a", "f", 1, none, "Hello world.", 2⟩ : Chunk)
        ∈ chunksOf (processPdf wordCountTok ⟨80, 600, 100, 100, 1, 0, 0⟩ "a" 1
            [⟨0, "Hello world."⟩] 12 "f.pdf" none)
    ∧ ∃ i, ("a_p1_c0" : String) = chunkIdFmt "a" 1 i := by
  have h := c2_texts_deterministic_ids_formatted wordCountTok ⟨80, 600, 100, 100, 1, 0, 0⟩
    "a" "b" 1 [⟨0, "Hello world."⟩] 12 "f.pdf" none
  have hmem : (⟨"a_p1_c0", "a", "f", 1, none, "Hello world.", 2⟩ : Chunk)
      ∈ chunksOf (processPdf wordCountTok ⟨80, 600, 100, 100, 1, 0, 0⟩ "a" 1
          [⟨0, "Hello world."⟩] 12 "f.pdf" none) := by decide
  exact ⟨h.1, hmem, h.2 _ hmem⟩

/-- C2 counterexample: two runs on byte-identical input (identical page
count and extracted markdown, identical configuration) that differ only
in the freshly generated `uuid4` document id produce byte-identical
chunk texts but different chunk ids, so the claim's id half is false as
stated. -/
theorem c2_counterexample :
    chunkTexts (processPdf wordCountTok ⟨80, 600, 100, 100, 1, 0, 0⟩ "a" 1
        [⟨0, "Hello world."⟩] 12 "f.pdf" none) = ["Hello world."]
    ∧ chunkTexts (processPdf wordCountTok ⟨80, 600, 100, 100, 1, 0, 0⟩ "b" 1
        [⟨0, "Hello world."⟩] 12 "f.pdf" none) = ["Hello world."]
    ∧ chunkIds (processPdf wordCountTok ⟨80, 600, 100, 100, 1, 0, 0⟩ "a" 1
        [⟨0, "Hello world."⟩] 12 "f.pdf" none) = ["a_p1_c0"]
    ∧ chunkIds (processPdf wordCountTok ⟨80, 600, 100, 100, 1, 0, 0⟩ "b" 1
        [⟨0, "Hello world."⟩] 12 "f.pdf" none) = ["b_p1_c0"]
    ∧ ("a_p1_c0" : String) ≠ "b_p1_c0" := by
  refine ⟨by decide, by decide, by decide, by decide, by decide⟩

/-- Witness for C10 on a concrete one-op sequence and a concrete
tracked query. -/
theorem c10_witness :
    (∀ op ∈ [TrackerOp.can "2025-01-01" "t1"], OpNonneg op)
    ∧ queriesAt (runOps ⟨80, 600, 100, 100, 1, 0, 0⟩ (fun _ => none)
        [TrackerOp.can "2025-01-01" "t1"]) "2025-01-01" ≥ queriesAt (fun _ => none) "2025-01-01"
    ∧ queriesAt (trackQuery (fun _ => none) "2025-01-01" "t1" 7 9 (1/4)).2 "2025-01-01"
      = queriesAt (fun _ => none) "2025-01-01" + 1
    ∧ costAt (trackQuery (fun _ => none) "2025-01-01" "t1" 7 9 (1/4)).2 "2025-01-01"
      = costAt (fun _ => none) "2025-01-01" + 1/4 := by
  have hops : ∀ op ∈ [TrackerOp.can "2025-01-01" "t1"], OpNonneg op := by
    intro op hop
    rcases List.mem_singleton.mp hop with rfl
    exact trivial
  have h := c10_counters_monotone_and_exact ⟨80, 600, 100, 100, 1, 0, 0⟩ (fun _ => none)
    "2025-01-01" "2025-01-01" "t1" [TrackerOp.can "2025-01-01" "t1"] 7 9 (1/4)
  exact ⟨hops, (h.1 hops).1, h.2.1, h.2.2.2.2⟩

end LegalRag
